import Mathlib

/-!
Verification development for the `wherewasi` session reporter
(`src/wherewasi/cli.py`).  The scanner reads newline-delimited JSON log
files, extracts per-session metadata with tolerant parsing, groups the
sessions into projects keyed by the recorded working directory, and
returns a recency-sorted list of projects.

Embedding conventions:
* timestamps (`datetime` values) are modelled as `Nat`;
* `_parse_datetime` wraps `datetime.fromisoformat` of the standard
  library, so the reader is parametrised by a total `parse : String → Nat`;
* one decoded JSON record is a `LogRec` holding exactly the fields the
  reader inspects; a line that raises `json.JSONDecodeError` is `none`;
* a log file is `none` when `stat`/`open`/read raises `OSError`, and
  otherwise `some (mtime, lines)`;
* the on-disk state of a project's `CLAUDE.md` is a `ClaudeMd` value:
  missing, existing-but-unreadable (where `read_text` raises `OSError`,
  which the source does not catch), or readable with the given lines;
* the projects root directory is `none` when it does not exist, and
  otherwise the list of its entries (non-directories, or directories
  with their `*.jsonl` files).
-/

set_option maxHeartbeats 1000000

namespace WhereWasI

/-- Message content of a record: either a plain JSON string or any other
JSON value (array, object, number, ...).  An absent `message` or
`content` field yields the empty string, mirroring
`rec.get("message", \x7b\x7d).get("content", "")`. -/
inductive MsgContent where
  | str (s : String)
  | other
deriving DecidableEq, Repr

/-- One decoded JSON record, restricted to the fields the reader reads:
`timestamp` and `type` are `none` when absent, `summary` and `cwd`
default to `""` (mirroring `rec.get(..., "")`). -/
structure LogRec where
  timestamp : Option String := none
  rtype : Option String := none
  summary : String := ""
  content : MsgContent := MsgContent.str ("")
  cwd : String := ""
deriving DecidableEq, Repr

/-- A `.jsonl` file on disk: `none` when it cannot be stat-ed/opened/read
(`OSError`), otherwise its modification time and decoded lines (a line
is `none` when `json.loads` fails). -/
abbrev LogFile := Option (Nat × List (Option LogRec))

/-- Session dataclass of the source: summary, first prompt, file
modification time, creation time. -/
structure Session where
  summary : String
  first_prompt : String
  modified : Nat
  created : Nat
deriving DecidableEq, Repr

/-- Project dataclass of the source. -/
structure Project where
  name : String
  path : String
  description : String
  sessions : List Session
deriving DecidableEq, Repr

/-- Property `last_active`: `max(s.modified for s in self.sessions)`.
Python's `max` raises on an empty list; the scanner never constructs an
empty project, and on an empty list this total model returns 0. -/
def Project.last_active (p : Project) : Nat :=
  match p.sessions.map (fun s => s.modified) with
  | [] => 0
  | x :: xs => xs.foldl max x

/-- State of the record-reading loop of `_read_jsonl_session`. -/
structure Acc where
  summary : String
  first_prompt : String
  cwd : String
  first_ts : Option String
deriving DecidableEq, Repr

/-- Initial loop state. -/
def acc0 : Acc := { summary := "", first_prompt := "", cwd := "", first_ts := none }

/-- Python truthiness of the `first_ts` variable (`None` or a string). -/
def optTruthy : Option String → Bool
  | none => false
  | some s => s != ""

/-- Effect of one decoded record on the loop state: the three `if`
blocks of the loop body in `_read_jsonl_session`. -/
def step (acc : Acc) (r : LogRec) : Acc :=
  let acc :=
    if acc.first_ts = none then
      match r.timestamp with
      | some ts => if ts = "" then acc else { acc with first_ts := some ts }
      | none => acc
    else acc
  let acc :=
    if r.rtype = some ("summary") then { acc with summary := r.summary } else acc
  let acc :=
    if r.rtype = some ("user") ∧ acc.first_prompt = "" then
      let acc :=
        match r.content with
        | MsgContent.str s => { acc with first_prompt := s }
        | MsgContent.other => acc
      if acc.cwd = "" then { acc with cwd := r.cwd } else acc
    else acc
  acc

/-- Early-exit test `if first_ts and first_prompt and summary: break`. -/
def isDone (acc : Acc) : Bool :=
  optTruthy acc.first_ts && (acc.first_prompt != "") && (acc.summary != "")

/-- The reading loop: undecodable lines are skipped, each decoded record
is folded through `step`, and the loop stops early once `isDone`. -/
def read_loop (acc : Acc) : List (Option LogRec) → Acc
  | [] => acc
  | none :: ls => read_loop acc ls
  | some r :: ls =>
    let acc' := step acc r
    if isDone acc' then acc' else read_loop acc' ls

/-- Variant of the loop without the early exit, reading every line;
used to compare early-stopped and full reads. -/
def read_loop_full (acc : Acc) : List (Option LogRec) → Acc
  | [] => acc
  | none :: ls => read_loop_full acc ls
  | some r :: ls => read_loop_full (step acc r) ls

/-- Model of `_read_jsonl_session`: `none` on `OSError` or when no record
carried a truthy timestamp, otherwise the `(cwd, Session)` pair. -/
def read_jsonl_session (parse : String → Nat) : LogFile → Option (String × Session)
  | none => none
  | some (mtime, lines) =>
    let a := read_loop acc0 lines
    match a.first_ts with
    | none => none
    | some ts =>
      some (a.cwd,
        { summary := a.summary, first_prompt := a.first_prompt,
          modified := mtime, created := parse ts })

/-- On-disk state of a project's `CLAUDE.md` file. -/
inductive ClaudeMd where
  | missing
  | unreadable
  | content (lines : List String)
deriving DecidableEq, Repr

/-- Line scan of `_read_project_description`: skip blanks, `# ` headings
and the boilerplate sentence; a `## ` heading returns its text, any
other line is returned as the description. -/
def extract_description : List String → String
  | [] => ""
  | l :: rest =>
    let line := l.trim
    if line = "" then extract_description rest
    else if line.startsWith ("# ") then extract_description rest
    else if line.startsWith ("This file provides guidance") then extract_description rest
    else if line.startsWith ("## ") then (line.drop 3).trim
    else line

/-- Model of `_read_project_description`: a missing file gives `""`; an
existing file that cannot be read raises `OSError`, which no caller
catches (modelled as `Except.error`); otherwise the line scan runs on
the decoded content (`errors="replace"` makes decoding total). -/
def read_project_description : ClaudeMd → Except Unit String
  | ClaudeMd.missing => Except.ok ("")
  | ClaudeMd.unreadable => Except.error ()
  | ClaudeMd.content ls => Except.ok (extract_description ls)

/-- Split of a character list at every `/`, keeping empty components. -/
def path_components : List Char → List (List Char)
  | [] => [[]]
  | c :: cs =>
    match path_components cs with
    | [] => [[]]
    | comp :: rest => if c = '/' then [] :: comp :: rest else (c :: comp) :: rest

/-- Final component of a POSIX path as `pathlib.Path(p).name`: the last
component after dropping empty and `.` components, `""` when none
remain. -/
def path_name (p : String) : String :=
  (((path_components p.data).map (fun cs => String.mk cs)).filter
      (fun c => c != "" && c != ".")).getLastD ("")

/-- Project name `Path(cwd).name or cwd`. -/
def project_name (cwd : String) : String :=
  let n := path_name cwd
  if n = "" then cwd else n

/-- One entry of the projects root directory: either not a directory
(skipped), or a directory with its `*.jsonl` files. -/
inductive Entry where
  | nondir
  | dir (files : List LogFile)

/-- The `(cwd, Session)` pairs one root entry contributes: none for a
non-directory, otherwise the successful reads of its files in order. -/
def unit_pairs (parse : String → Nat) : Entry → List (String × Session)
  | Entry.nondir => []
  | Entry.dir files => files.filterMap (read_jsonl_session parse)

/-- All `(cwd, Session)` pairs of the scan, in discovery order. -/
def all_pairs (parse : String → Nat) : List Entry → List (String × Session)
  | [] => []
  | e :: es => unit_pairs parse e ++ all_pairs parse es

/-- Insertion of one pair into the project accumulator (the dict body of
the scan loop): append the session to an existing project with the same
path, or construct a new project, reading its description (which can
raise). -/
def add_session (fs : String → ClaudeMd) (projects : List Project)
    (cwd : String) (s : Session) : Except Unit (List Project) :=
  if projects.any (fun p => p.path == cwd) then
    Except.ok (projects.map (fun p =>
      if p.path = cwd then { p with sessions := p.sessions ++ [s] } else p))
  else
    match read_project_description (fs cwd) with
    | Except.error e => Except.error e
    | Except.ok d =>
      Except.ok (projects ++
        [{ name := project_name cwd, path := cwd, description := d, sessions := [s] }])

/-- Folding every discovered pair through `add_session`. -/
def add_all (fs : String → ClaudeMd) :
    List Project → List (String × Session) → Except Unit (List Project)
  | projects, [] => Except.ok projects
  | projects, (c, s) :: ps =>
    match add_session fs projects c s with
    | Except.error e => Except.error e
    | Except.ok projects' => add_all fs projects' ps

/-- Stable descending insertion by a `Nat` key: the new element goes in
front of the first element whose key is not larger, so an
original-earlier element precedes equal-keyed later ones. -/
def insert_desc {α : Type} (key : α → Nat) (a : α) : List α → List α
  | [] => [a]
  | b :: l => if key a < key b then b :: insert_desc key a l else a :: b :: l

/-- Stable descending sort by a `Nat` key; extensionally the unique
stable non-increasing sort, hence the behaviour of Python's
`list.sort(key=..., reverse=True)`. -/
def sort_desc {α : Type} (key : α → Nat) : List α → List α
  | [] => []
  | a :: l => insert_desc key a (sort_desc key l)

/-- Session sort key. -/
def mod_key (s : Session) : Nat := s.modified

/-- Replacement of a project's session list by its `modified`-descending
stable sort (the in-place `project.sessions.sort(...)` of the scan). -/
def sort_sessions (p : Project) : Project :=
  { p with sessions := sort_desc mod_key p.sessions }

/-- Model of `_scan_projects`: empty for an absent root, otherwise group
all pairs, sort each project's sessions by `modified` descending, and
sort the projects by `last_active` descending. -/
def scan_projects (parse : String → Nat) (fs : String → ClaudeMd)
    (root : Option (List Entry)) : Except Unit (List Project) :=
  match root with
  | none => Except.ok []
  | some entries =>
    match add_all fs [] (all_pairs parse entries) with
    | Except.error e => Except.error e
    | Except.ok projects =>
      Except.ok (sort_desc Project.last_active (projects.map sort_sessions))

/-! Declarative helpers used to state the claims (the code above is the
authoritative translation of the source; these express the properties
the spec asserts about it). -/

/-- Records that decode, in file order. -/
def decoded (lines : List (Option LogRec)) : List LogRec := lines.filterMap id

/-- Truthy timestamp of one record (`rec.get("timestamp")` and the
`if ts:` test). -/
def rec_ts (r : LogRec) : Option String :=
  match r.timestamp with
  | some ts => if ts = "" then none else some ts
  | none => none

/-- First truthy timestamp in the decodable stream. -/
def first_timestamp (lines : List (Option LogRec)) : Option String :=
  ((decoded lines).filterMap rec_ts).head?

/-- Summary field of the first `"summary"`-typed decodable record. -/
def first_summary (lines : List (Option LogRec)) : Option String :=
  (((decoded lines).filter (fun r => r.rtype == some ("summary"))).head?).map
    (fun r => r.summary)

/-- Summary field of the last `"summary"`-typed record of a record list. -/
def last_summary : List LogRec → Option String
  | [] => none
  | r :: rs =>
    match last_summary rs with
    | some s => some s
    | none => if r.rtype = some ("summary") then some r.summary else none

/-- Records the loop actually processes: decodable records up to and
including the one whose `step` makes `isDone` true. -/
def processed_recs (acc : Acc) : List (Option LogRec) → List LogRec
  | [] => []
  | none :: ls => processed_recs acc ls
  | some r :: ls =>
    let acc' := step acc r
    r :: (if isDone acc' then [] else processed_recs acc' ls)

/-- The `"user"`-typed records of the decodable stream. -/
def user_recs (lines : List (Option LogRec)) : List LogRec :=
  (decoded lines).filter (fun r => r.rtype == some ("user"))

/-- Whether a record's message content is a non-empty plain string, i.e.
whether processing it while `first_prompt` is empty makes it non-empty. -/
def sets_prompt (r : LogRec) : Bool :=
  match r.content with
  | MsgContent.str s => s != ""
  | MsgContent.other => false

/-- Declarative first prompt: content of the first record (of the
`"user"` sublist) whose content is a non-empty plain string. -/
def spec_first_prompt : List LogRec → String
  | [] => ""
  | r :: rs =>
    match r.content with
    | MsgContent.str s => if s = "" then spec_first_prompt rs else s
    | MsgContent.other => spec_first_prompt rs

/-- Declarative cwd: first non-empty `cwd` among the `"user"` records up
to and including the one that sets the prompt. -/
def spec_cwd : List LogRec → String
  | [] => ""
  | r :: rs =>
    if r.cwd ≠ "" then r.cwd
    else if sets_prompt r then ("")
    else spec_cwd rs

/-- Relation ("non-increasing last activity") between projects. -/
def la_ge (a b : Project) : Prop := b.last_active ≤ a.last_active

/-- Relation ("non-increasing modification time") between sessions. -/
def mod_ge (a b : Session) : Prop := b.modified ≤ a.modified

/-- Boolean filter ("project with this last activity"). -/
def by_la (m : Nat) (p : Project) : Bool := decide (p.last_active = m)

/-- Boolean filter ("session with this modification time"). -/
def by_mod (m : Nat) (s : Session) : Bool := decide (s.modified = m)

/-- Boolean filter ("pair recorded for this path"). -/
def by_cwd (c : String) (q : String × Session) : Bool := decide (q.1 = c)

/-- Grouping invariant tying the accumulator of `add_all` to the list of
pairs already folded in. -/
def Grouped (pairs : List (String × Session)) (projects : List Project) : Prop :=
  (projects.map (fun p => p.path)).Nodup
  ∧ (∀ p ∈ projects, p.sessions = (pairs.filter (by_cwd p.path)).map (fun q => q.2))
  ∧ (∀ q ∈ pairs, ∃ p ∈ projects, p.path = q.1)
  ∧ (∀ p ∈ projects, ∃ q ∈ pairs, q.1 = p.path)
  ∧ (∀ p ∈ projects, p.name = project_name p.path)

/-- Projection of a session to its modification time. -/
def session_modified (s : Session) : Nat := s.modified

/-- Projection of a `(cwd, Session)` pair to the session's creation time. -/
def pair_created (q : String × Session) : Nat := q.2.created

/-- Projection of a `(cwd, Session)` pair to its originating path. -/
def pair_cwd (q : String × Session) : String := q.1

/-- Timestamp parser used in the concrete examples (length of the string). -/
def ex_parse (s : String) : Nat := s.length

/-- Filesystem with no `CLAUDE.md` anywhere, used in the examples. -/
def fs_ex : String → ClaudeMd := fun _ => ClaudeMd.missing

/-- Filesystem where every `CLAUDE.md` exists but cannot be read. -/
def fs_unreadable : String → ClaudeMd := fun _ => ClaudeMd.unreadable

/-- Example summary record with summary text `A`. -/
def rec_sum_a : LogRec := { rtype := some ("summary"), summary := "A" }

/-- Example summary record with summary text `B`. -/
def rec_sum_b : LogRec := { rtype := some ("summary"), summary := "B" }

/-- Example user record in `/x` with prompt `hi` and a timestamp. -/
def rec_u1 : LogRec :=
  { timestamp := some ("T1"), rtype := some ("user"),
    content := MsgContent.str ("hi"), cwd := "/x" }

/-- Example user record in `/x` with prompt `yo` and a longer timestamp. -/
def rec_u2 : LogRec :=
  { timestamp := some ("T234"), rtype := some ("user"),
    content := MsgContent.str ("yo"), cwd := "/x" }

/-- Example user record in `/y` with prompt `hey`. -/
def rec_u3 : LogRec :=
  { timestamp := some ("T1"), rtype := some ("user"),
    content := MsgContent.str ("hey"), cwd := "/y" }

/-- Example user record whose message content is the empty string. -/
def rec_user_empty : LogRec :=
  { timestamp := some ("T1"), rtype := some ("user"),
    content := MsgContent.str (""), cwd := "/a" }

/-- Example user record with prompt `hello` in `/b`, no timestamp. -/
def rec_user_hello : LogRec :=
  { rtype := some ("user"), content := MsgContent.str ("hello"), cwd := "/b" }

/-- Example user record carrying a timestamp but no `cwd` field. -/
def rec_user_nocwd : LogRec :=
  { timestamp := some ("T9"), rtype := some ("user"),
    content := MsgContent.str ("q"), cwd := "" }

/-- Log whose two summary records precede the only user record. -/
def c4_lines : List (Option LogRec) := [some rec_sum_a, some rec_sum_b, some rec_u1]

/-- Log where the early exit fires between the two summary records. -/
def c4_lines_early : List (Option LogRec) := [some rec_u1, some rec_sum_a, some rec_sum_b]

/-- Log whose first user record has empty string content. -/
def c5_lines : List (Option LogRec) := [some rec_user_empty, some rec_user_hello]

/-- Log with no timestamp on any record. -/
def c6_lines : List (Option LogRec) := [some rec_sum_a]

/-- Log with a timestamp but no user record bearing a cwd. -/
def c10_lines : List (Option LogRec) := [some rec_user_nocwd]

/-- Example projects root: a stray file, a directory with one readable
log plus one undecodable one, and a directory with two logs whose
sessions land in `/x` and `/y`. -/
def entries_ex : List Entry :=
  [Entry.nondir,
   Entry.dir [some (5, [some rec_u1]), none],
   Entry.dir [some (9, [some rec_u2]), some (7, [some rec_u3])]]

/-- Root with a single valid log, used against `fs_unreadable`. -/
def entries9 : List Entry := [Entry.dir [some (7, [some rec_u1])]]

/-- Session read from `rec_u1` at mtime 5. -/
def ex_s1 : Session := { summary := "", first_prompt := "hi", modified := 5, created := 2 }

/-- Session read from `rec_u2` at mtime 9. -/
def ex_s2 : Session := { summary := "", first_prompt := "yo", modified := 9, created := 4 }

/-- Session read from `rec_u3` at mtime 7. -/
def ex_s3 : Session := { summary := "", first_prompt := "hey", modified := 7, created := 2 }

/-- Grouped (pre-sort) project for `/x` in the example scan. -/
def proj_x : Project := { name := "x", path := "/x", description := "", sessions := [ex_s1, ex_s2] }

/-- Grouped (pre-sort) project for `/y` in the example scan. -/
def proj_y : Project := { name := "y", path := "/y", description := "", sessions := [ex_s3] }

/-- Project for `/x` with sessions sorted by recency. -/
def proj_x_sorted : Project :=
  { name := "x", path := "/x", description := "", sessions := [ex_s2, ex_s1] }

/-- Grouped accumulator for the example scan, in discovery order. -/
def projs_ex : List Project := [proj_x, proj_y]

/-- Final result of the example scan. -/
def l_ex : List Project := [proj_x_sorted, proj_y]

end WhereWasI

namespace WhereWasI

theorem step_summary (acc : Acc) (r : LogRec) :
    (step acc r).summary = if r.rtype = some ("summary") then r.summary else acc.summary := by
  obtain ⟨ts, ty, sm, ct, cw⟩ := r
  obtain ⟨a1, a2, a3, a4⟩ := acc
  simp only [step]
  repeat' split
  all_goals simp_all

theorem step_first_prompt (acc : Acc) (r : LogRec) :
    (step acc r).first_prompt =
      if r.rtype = some ("user") ∧ acc.first_prompt = "" then
        (match r.content with
         | MsgContent.str s => s
         | MsgContent.other => acc.first_prompt)
      else acc.first_prompt := by
  obtain ⟨ts, ty, sm, ct, cw⟩ := r
  obtain ⟨a1, a2, a3, a4⟩ := acc
  simp only [step]
  repeat' split
  all_goals simp_all

theorem step_cwd (acc : Acc) (r : LogRec) :
    (step acc r).cwd =
      if r.rtype = some ("user") ∧ acc.first_prompt = "" ∧ acc.cwd = "" then r.cwd
      else acc.cwd := by
  obtain ⟨ts, ty, sm, ct, cw⟩ := r
  obtain ⟨a1, a2, a3, a4⟩ := acc
  simp only [step]
  repeat' split
  all_goals simp_all

theorem step_first_ts (acc : Acc) (r : LogRec) :
    (step acc r).first_ts = if acc.first_ts = none then rec_ts r else acc.first_ts := by
  obtain ⟨ts, ty, sm, ct, cw⟩ := r
  obtain ⟨a1, a2, a3, a4⟩ := acc
  simp only [step, rec_ts]
  repeat' split
  all_goals simp_all

end WhereWasI

namespace WhereWasI

theorem decoded_nil : decoded [] = [] := rfl

theorem decoded_cons_none (ls : List (Option LogRec)) : decoded (none :: ls) = decoded ls := by
  simp [decoded]

theorem decoded_cons_some (r : LogRec) (ls : List (Option LogRec)) :
    decoded (some r :: ls) = r :: decoded ls := by
  simp [decoded]

theorem first_timestamp_nil : first_timestamp [] = none := rfl

theorem first_timestamp_cons_none (ls : List (Option LogRec)) :
    first_timestamp (none :: ls) = first_timestamp ls := by
  simp [first_timestamp, decoded_cons_none]

theorem first_timestamp_cons_some (r : LogRec) (ls : List (Option LogRec)) :
    first_timestamp (some r :: ls) =
      match rec_ts r with
      | some t => some t
      | none => first_timestamp ls := by
  simp only [first_timestamp, decoded_cons_some, List.filterMap_cons]
  cases rec_ts r <;> simp

theorem user_recs_cons_none (ls : List (Option LogRec)) :
    user_recs (none :: ls) = user_recs ls := by
  simp [user_recs, decoded_cons_none]

theorem user_recs_cons_some (r : LogRec) (ls : List (Option LogRec)) :
    user_recs (some r :: ls) =
      if r.rtype = some ("user") then r :: user_recs ls else user_recs ls := by
  simp only [user_recs, decoded_cons_some, List.filter_cons]
  split_ifs with h1 h2 h2 <;> simp_all

theorem read_loop_first_ts (ls : List (Option LogRec)) : ∀ acc : Acc,
    (read_loop acc ls).first_ts =
      if acc.first_ts = none then first_timestamp ls else acc.first_ts := by
  induction ls with
  | nil =>
    intro acc
    simp only [read_loop, first_timestamp_nil]
    split_ifs with h <;> simp [h]
  | cons l ls ih =>
    intro acc
    cases l with
    | none => simp only [read_loop, first_timestamp_cons_none]; exact ih acc
    | some r =>
      simp only [read_loop, first_timestamp_cons_some]
      by_cases hd : isDone (step acc r)
      · simp only [hd, if_true]
        rw [step_first_ts]
        by_cases ha : acc.first_ts = none
        · simp only [ha, if_true]
          -- isDone forces the stepped first_ts to be truthy, hence rec_ts r is some
          have hts : (step acc r).first_ts = rec_ts r := by rw [step_first_ts, ha]; simp
          cases hrt : rec_ts r with
          | none =>
            exfalso
            have := hd
            simp only [isDone, Bool.and_eq_true] at this
            rw [hts, hrt] at this
            simp [optTruthy] at this
          | some t => simp
        · simp [ha]
      · rw [if_neg hd]
        rw [ih (step acc r), step_first_ts]
        by_cases ha : acc.first_ts = none
        · simp only [ha, if_true]
          cases hrt : rec_ts r with
          | none => simp
          | some t => simp
        · simp [ha]

end WhereWasI


namespace WhereWasI

theorem isDone_ne_fp {a : Acc} (hd : isDone a = true) : a.first_prompt ≠ "" := by
  simp only [isDone, Bool.and_eq_true, bne_iff_ne] at hd
  exact hd.1.2

theorem read_loop_first_prompt (ls : List (Option LogRec)) : ∀ acc : Acc,
    (read_loop acc ls).first_prompt =
      if acc.first_prompt = "" then spec_first_prompt (user_recs ls)
      else acc.first_prompt := by
  induction ls with
  | nil =>
    intro acc
    have h0 : user_recs ([] : List (Option LogRec)) = [] := rfl
    simp only [read_loop, h0]
    split_ifs with h <;> simp [spec_first_prompt, h]
  | cons l ls ih =>
    intro acc
    cases l with
    | none => simpa only [read_loop, user_recs_cons_none] using ih acc
    | some r =>
      have hstep := step_first_prompt acc r
      simp only [read_loop]
      by_cases hfp : acc.first_prompt = ""
      case neg =>
        have hs : (step acc r).first_prompt = acc.first_prompt := by
          rw [hstep, if_neg]; exact fun hh => hfp hh.2
        by_cases hd : isDone (step acc r)
        · rw [if_pos hd, hs, if_neg hfp]
        · rw [if_neg hd, ih (step acc r), hs, if_neg hfp, if_neg hfp]
      case pos =>
        by_cases hu : r.rtype = some ("user")
        case neg =>
          have hs : (step acc r).first_prompt = acc.first_prompt := by
            rw [hstep, if_neg]; exact fun hh => hu hh.1
          have hur : user_recs (some r :: ls) = user_recs ls := by
            rw [user_recs_cons_some, if_neg hu]
          by_cases hd : isDone (step acc r)
          · exact absurd (hs.trans hfp) (isDone_ne_fp hd)
          · rw [if_neg hd, ih (step acc r), hs, if_pos hfp, if_pos hfp, hur]
        case pos =>
          have hur : user_recs (some r :: ls) = r :: user_recs ls := by
            rw [user_recs_cons_some, if_pos hu]
          cases hc : r.content with
          | other =>
            have hs : (step acc r).first_prompt = acc.first_prompt := by
              rw [hstep, if_pos ⟨hu, hfp⟩, hc]
            have hspec : spec_first_prompt (r :: user_recs ls) =
                spec_first_prompt (user_recs ls) := by
              simp [spec_first_prompt, hc]
            by_cases hd : isDone (step acc r)
            · exact absurd (hs.trans hfp) (isDone_ne_fp hd)
            · rw [if_neg hd, ih (step acc r), hs, if_pos hfp, if_pos hfp, hur, hspec]
          | str s =>
            have hs : (step acc r).first_prompt = s := by
              rw [hstep, if_pos ⟨hu, hfp⟩, hc]
            by_cases hse : s = ""
            · have hspec : spec_first_prompt (r :: user_recs ls) =
                  spec_first_prompt (user_recs ls) := by
                simp [spec_first_prompt, hc, hse]
              by_cases hd : isDone (step acc r)
              · exact absurd (hs.trans hse) (isDone_ne_fp hd)
              · rw [if_neg hd, ih (step acc r), hs, if_pos hse, if_pos hfp, hur, hspec]
            · have hspec : spec_first_prompt (r :: user_recs ls) = s := by
                simp [spec_first_prompt, hc, hse]
              by_cases hd : isDone (step acc r)
              · rw [if_pos hd, hs, if_pos hfp, hur, hspec]
              · rw [if_neg hd, ih (step acc r), hs, if_neg hse, if_pos hfp, hur, hspec]

end WhereWasI

namespace WhereWasI

theorem read_loop_cwd (ls : List (Option LogRec)) : ∀ acc : Acc,
    (read_loop acc ls).cwd =
      if acc.first_prompt = "" ∧ acc.cwd = "" then spec_cwd (user_recs ls)
      else acc.cwd := by
  induction ls with
  | nil =>
    intro acc
    have h0 : user_recs ([] : List (Option LogRec)) = [] := rfl
    simp only [read_loop, h0]
    split_ifs with h
    · exact h.2
    · rfl
  | cons l ls ih =>
    intro acc
    cases l with
    | none => simpa only [read_loop, user_recs_cons_none] using ih acc
    | some r =>
      have hstepc := step_cwd acc r
      have hstepp := step_first_prompt acc r
      simp only [read_loop]
      by_cases hfp : acc.first_prompt = ""
      case neg =>
        have hsc : (step acc r).cwd = acc.cwd := by
          rw [hstepc, if_neg]; exact fun hh => hfp hh.2.1
        have hsp : (step acc r).first_prompt = acc.first_prompt := by
          rw [hstepp, if_neg]; exact fun hh => hfp hh.2
        by_cases hd : isDone (step acc r)
        · rw [if_pos hd, hsc, if_neg (fun hh => hfp hh.1)]
        · rw [if_neg hd, ih (step acc r), hsc, hsp,
            if_neg (fun hh => hfp hh.1), if_neg (fun hh => hfp hh.1)]
      case pos =>
        by_cases hcw : acc.cwd = ""
        case neg =>
          have hsc : (step acc r).cwd = acc.cwd := by
            rw [hstepc, if_neg]; exact fun hh => hcw hh.2.2
          by_cases hd : isDone (step acc r)
          · rw [if_pos hd, hsc, if_neg (fun hh => hcw hh.2)]
          · rw [if_neg hd, ih (step acc r), hsc,
              if_neg (fun hh => hcw hh.2), if_neg (fun hh => hcw hh.2)]
        case pos =>
          rw [if_pos (And.intro hfp hcw)]
          by_cases hu : r.rtype = some ("user")
          case neg =>
            have hsc : (step acc r).cwd = acc.cwd := by
              rw [hstepc, if_neg]; exact fun hh => hu hh.1
            have hsp : (step acc r).first_prompt = acc.first_prompt := by
              rw [hstepp, if_neg]; exact fun hh => hu hh.1
            have hur : user_recs (some r :: ls) = user_recs ls := by
              rw [user_recs_cons_some, if_neg hu]
            by_cases hd : isDone (step acc r)
            · exact absurd (hsp.trans hfp) (isDone_ne_fp hd)
            · rw [if_neg hd, ih (step acc r), hsc, hsp,
                if_pos (And.intro hfp hcw), hur]
          case pos =>
            have hur : user_recs (some r :: ls) = r :: user_recs ls := by
              rw [user_recs_cons_some, if_pos hu]
            have hsc : (step acc r).cwd = r.cwd := by
              rw [hstepc, if_pos ⟨hu, hfp, hcw⟩]
            rw [hur]
            by_cases hrc : r.cwd = ""
            case neg =>
              have hspec : spec_cwd (r :: user_recs ls) = r.cwd := by
                simp [spec_cwd, hrc]
              rw [hspec]
              by_cases hd : isDone (step acc r)
              · rw [if_pos hd, hsc]
              · rw [if_neg hd, ih (step acc r), hsc,
                  if_neg (fun hh => hrc hh.2)]
            case pos =>
              by_cases hsetp : sets_prompt r = true
              case pos =>
                have hspec : spec_cwd (r :: user_recs ls) = "" := by
                  simp [spec_cwd, hrc, hsetp]
                have hsp : (step acc r).first_prompt ≠ "" := by
                  rw [hstepp, if_pos ⟨hu, hfp⟩]
                  cases hc : r.content with
                  | str s =>
                    simp only [sets_prompt, hc, bne_iff_ne] at hsetp
                    simpa using hsetp
                  | other => simp [sets_prompt, hc] at hsetp
                rw [hspec]
                by_cases hd : isDone (step acc r)
                · rw [if_pos hd, hsc]; exact hrc
                · rw [if_neg hd, ih (step acc r), hsc,
                    if_neg (fun hh => hsp hh.1)]
                  exact hrc
              case neg =>
                have hspec : spec_cwd (r :: user_recs ls) = spec_cwd (user_recs ls) := by
                  simp [spec_cwd, hrc, hsetp]
                have hsp : (step acc r).first_prompt = "" := by
                  rw [hstepp, if_pos ⟨hu, hfp⟩]
                  cases hc : r.content with
                  | str s =>
                    simp only [sets_prompt, hc, bne_iff_ne, ne_eq, not_not] at hsetp
                    simpa using hsetp
                  | other => exact hfp
                rw [hspec]
                by_cases hd : isDone (step acc r)
                · exact absurd hsp (isDone_ne_fp hd)
                · rw [if_neg hd, ih (step acc r), hsc, hsp, if_pos (And.intro rfl hrc)]

theorem read_loop_summary (ls : List (Option LogRec)) : ∀ acc : Acc,
    (read_loop acc ls).summary =
      (last_summary (processed_recs acc ls)).getD acc.summary := by
  induction ls with
  | nil => intro acc; rfl
  | cons l ls ih =>
    intro acc
    cases l with
    | none => simpa only [read_loop, processed_recs] using ih acc
    | some r =>
      simp only [read_loop, processed_recs]
      by_cases hd : isDone (step acc r)
      · rw [if_pos hd, if_pos hd]
        have h1 : last_summary [r] =
            if r.rtype = some ("summary") then some r.summary else none := rfl
        rw [h1, step_summary]
        by_cases hu : r.rtype = some ("summary")
        · rw [if_pos hu, if_pos hu]; rfl
        · rw [if_neg hu, if_neg hu]; rfl
      · rw [if_neg hd, if_neg hd, ih (step acc r)]
        have h1 : last_summary (r :: processed_recs (step acc r) ls) =
            match last_summary (processed_recs (step acc r) ls) with
            | some s => some s
            | none => if r.rtype = some ("summary") then some r.summary else none := rfl
        rw [h1]
        cases hls : last_summary (processed_recs (step acc r) ls) with
        | some s => rfl
        | none =>
          rw [step_summary]
          by_cases hu : r.rtype = some ("summary")
          · simp [hu]
          · simp [hu]

end WhereWasI

namespace WhereWasI

theorem read_jsonl_session_eq (parse : String → Nat) (mtime : Nat)
    (lines : List (Option LogRec)) :
    read_jsonl_session parse (some (mtime, lines)) =
      match first_timestamp lines with
      | none => none
      | some t =>
        some (spec_cwd (user_recs lines),
          { summary := (last_summary (processed_recs acc0 lines)).getD (""),
            first_prompt := spec_first_prompt (user_recs lines),
            modified := mtime, created := parse t }) := by
  have hts : (read_loop acc0 lines).first_ts = first_timestamp lines := by
    rw [read_loop_first_ts]; simp [acc0]
  have hfp : (read_loop acc0 lines).first_prompt = spec_first_prompt (user_recs lines) := by
    rw [read_loop_first_prompt]; simp [acc0]
  have hcw : (read_loop acc0 lines).cwd = spec_cwd (user_recs lines) := by
    rw [read_loop_cwd]; simp [acc0]
  have hsm : (read_loop acc0 lines).summary =
      (last_summary (processed_recs acc0 lines)).getD ("") := by
    rw [read_loop_summary]; rfl
  simp only [read_jsonl_session, hts, hfp, hcw, hsm]

theorem insert_desc_perm {α : Type} (key : α → Nat) (a : α) (l : List α) :
    (insert_desc key a l).Perm (a :: l) := by
  induction l with
  | nil => exact List.Perm.refl _
  | cons b l ih =>
    simp only [insert_desc]
    split_ifs with h
    · exact (ih.cons b).trans (List.Perm.swap a b l)
    · exact List.Perm.refl _

theorem sort_desc_perm {α : Type} (key : α → Nat) (l : List α) :
    (sort_desc key l).Perm l := by
  induction l with
  | nil => exact List.Perm.refl _
  | cons a l ih => exact (insert_desc_perm key a _).trans (ih.cons a)

theorem insert_desc_sorted {α : Type} (key : α → Nat) (a : α) (l : List α)
    (h : l.Pairwise (fun x y => key y ≤ key x)) :
    (insert_desc key a l).Pairwise (fun x y => key y ≤ key x) := by
  induction l with
  | nil => simp [insert_desc]
  | cons b l ih =>
    rcases List.pairwise_cons.mp h with ⟨hb, hl⟩
    simp only [insert_desc]
    split_ifs with hab
    · refine List.pairwise_cons.mpr ⟨?_, ih hl⟩
      intro x hx
      rcases List.mem_cons.mp ((insert_desc_perm key a l).mem_iff.mp hx) with rfl | hx
      · exact Nat.le_of_lt hab
      · exact hb x hx
    · refine List.pairwise_cons.mpr ⟨?_, h⟩
      intro x hx
      rcases List.mem_cons.mp hx with rfl | hx
      · exact Nat.le_of_not_lt hab
      · exact le_trans (hb x hx) (Nat.le_of_not_lt hab)

end WhereWasI

namespace WhereWasI

theorem sort_desc_sorted {α : Type} (key : α → Nat) (l : List α) :
    (sort_desc key l).Pairwise (fun x y => key y ≤ key x) := by
  induction l with
  | nil => simp [sort_desc]
  | cons a l ih => exact insert_desc_sorted key a _ ih


theorem insert_desc_filter {α : Type} (key : α → Nat) (m : Nat) (a : α) (l : List α) :
    (insert_desc key a l).filter (fun x => decide (key x = m)) =
      if key a = m then a :: l.filter (fun x => decide (key x = m))
      else l.filter (fun x => decide (key x = m)) := by
  induction l with
  | nil =>
    by_cases h : key a = m <;> simp [insert_desc, List.filter, h]
  | cons b l ih =>
    by_cases hab : key a < key b
    · have h1 : insert_desc key a (b :: l) = b :: insert_desc key a l := by
        simp [insert_desc, hab]
      rw [h1]
      by_cases hbm : key b = m
      · have ham : ¬key a = m := by omega
        simp [List.filter_cons, hbm, ham, ih]
      · by_cases ham : key a = m
        · simp [List.filter_cons, hbm, ham, ih]
        · simp [List.filter_cons, hbm, ham, ih]
    · have h1 : insert_desc key a (b :: l) = a :: b :: l := by
        simp [insert_desc, hab]
      rw [h1]
      by_cases ham : key a = m
      · simp [List.filter_cons, ham]
      · simp [List.filter_cons, ham]

theorem sort_desc_filter {α : Type} (key : α → Nat) (m : Nat) (l : List α) :
    (sort_desc key l).filter (fun x => decide (key x = m)) =
      l.filter (fun x => decide (key x = m)) := by
  induction l with
  | nil => rfl
  | cons a l ih =>
    rw [show sort_desc key (a :: l) = insert_desc key a (sort_desc key l) from rfl,
      insert_desc_filter]
    by_cases ham : key a = m
    · simp [List.filter_cons, ham, ih]
    · simp [List.filter_cons, ham, ih]

theorem foldl_max_init_le (xs : List Nat) (x : Nat) : x ≤ xs.foldl max x := by
  induction xs generalizing x with
  | nil => exact Nat.le_refl x
  | cons a xs ih => exact le_trans (Nat.le_max_left x a) (ih (max x a))

theorem foldl_max_mem_le (xs : List Nat) (x : Nat) : ∀ y ∈ xs, y ≤ xs.foldl max x := by
  induction xs generalizing x with
  | nil => intro y hy; cases hy
  | cons a xs ih =>
    intro y hy
    rcases List.mem_cons.mp hy with rfl | hy
    · exact le_trans (Nat.le_max_right x y) (foldl_max_init_le xs (max x y))
    · exact ih (max x a) y hy

theorem foldl_max_cases (xs : List Nat) (x : Nat) :
    xs.foldl max x = x ∨ xs.foldl max x ∈ xs := by
  induction xs generalizing x with
  | nil => exact Or.inl rfl
  | cons a xs ih =>
    rcases ih (max x a) with h | h
    · rcases le_total x a with hm | hm
      · exact Or.inr (by
          rw [List.foldl_cons, h, max_eq_right hm]
          exact List.mem_cons_self a xs)
      · exact Or.inl (by rw [List.foldl_cons, h, max_eq_left hm])
    · exact Or.inr (List.mem_cons_of_mem a h)

theorem last_active_ub (p : Project) : ∀ s ∈ p.sessions, s.modified ≤ p.last_active := by
  intro s hs
  have hmem : s.modified ∈ p.sessions.map (fun s => s.modified) :=
    List.mem_map_of_mem _ hs
  unfold Project.last_active
  cases hm : p.sessions.map (fun s => s.modified) with
  | nil => rw [hm] at hmem; cases hmem
  | cons x xs =>
    rw [hm] at hmem
    rcases List.mem_cons.mp hmem with h | h
    · rw [h]; exact foldl_max_init_le xs x
    · exact foldl_max_mem_le xs x _ h

theorem last_active_mem (p : Project) (h : p.sessions ≠ []) :
    p.last_active ∈ p.sessions.map (fun s => s.modified) := by
  unfold Project.last_active
  cases hm : p.sessions.map (fun s => s.modified) with
  | nil => exact absurd (List.map_eq_nil_iff.mp hm) h
  | cons x xs =>
    show xs.foldl max x ∈ x :: xs
    rcases foldl_max_cases xs x with h1 | h1
    · rw [h1]; exact List.mem_cons_self x xs
    · exact List.mem_cons_of_mem x h1

end WhereWasI

namespace WhereWasI

theorem grouped_nil : Grouped [] [] := by
  refine ⟨List.nodup_nil, ?_, ?_, ?_, ?_⟩ <;> simp

theorem add_session_ok_grouped {fs : String → ClaudeMd} {projects projects' : List Project}
    {pairs : List (String × Session)} {cwd : String} {s : Session}
    (h : add_session fs projects cwd s = Except.ok projects')
    (hg : Grouped pairs projects) :
    Grouped (pairs ++ [(cwd, s)]) projects' := by
  obtain ⟨hnd, hsess, hcov, hrev, hname⟩ := hg
  have hfilter_single : ∀ c : String,
      ([(cwd, s)].filter (by_cwd c)) = if cwd = c then [(cwd, s)] else [] := by
    intro c
    by_cases hc : cwd = c <;> simp [by_cwd, List.filter_cons, hc]
  by_cases hin : projects.any (fun p => p.path == cwd) = true
  case pos =>
    obtain ⟨p0, hp0, hp0c⟩ := List.any_eq_true.mp hin
    have hp0path : p0.path = cwd := by simpa using hp0c
    have hproj : projects' = projects.map (fun p =>
        if p.path = cwd then { p with sessions := p.sessions ++ [s] } else p) := by
      rw [add_session, if_pos hin] at h
      exact ((Except.ok.injEq _ _).mp h).symm
    have hpath : ∀ p : Project,
        ((if p.path = cwd then { p with sessions := p.sessions ++ [s] } else p) :
          Project).path = p.path := by
      intro p; split_ifs <;> rfl
    have hmap : projects'.map (fun p => p.path) = projects.map (fun p => p.path) := by
      rw [hproj, List.map_map]
      exact List.map_congr_left (fun p _ => hpath p)
    refine ⟨hmap ▸ hnd, ?_, ?_, ?_, ?_⟩
    · intro p' hp'
      rw [hproj] at hp'
      obtain ⟨p, hp, rfl⟩ := List.mem_map.mp hp'
      rw [List.filter_append, List.map_append, hpath, hfilter_single p.path]
      by_cases hpc : p.path = cwd
      · rw [if_pos hpc, if_pos hpc.symm]
        simp only [List.map_cons, List.map_nil]
        rw [← hsess p hp]
      · rw [if_neg hpc, if_neg (fun hh => hpc hh.symm)]
        simp only [List.map_nil, List.append_nil]
        exact hsess p hp
    · intro q hq
      rcases List.mem_append.mp hq with hq | hq
      · obtain ⟨p, hp, hpq⟩ := hcov q hq
        refine ⟨(if p.path = cwd then { p with sessions := p.sessions ++ [s] } else p),
          ?_, ?_⟩
        · rw [hproj]; exact List.mem_map_of_mem _ hp
        · rw [hpath]; exact hpq
      · have hq1 : q = (cwd, s) := by simpa using hq
        refine ⟨(if p0.path = cwd then { p0 with sessions := p0.sessions ++ [s] } else p0),
          ?_, ?_⟩
        · rw [hproj]; exact List.mem_map_of_mem _ hp0
        · rw [hpath, hp0path, hq1]
    · intro p' hp'
      rw [hproj] at hp'
      obtain ⟨p, hp, rfl⟩ := List.mem_map.mp hp'
      obtain ⟨q, hq, hq1⟩ := hrev p hp
      exact ⟨q, List.mem_append_left _ hq, by rw [hpath]; exact hq1⟩
    · intro p' hp'
      rw [hproj] at hp'
      obtain ⟨p, hp, rfl⟩ := List.mem_map.mp hp'
      have : ((if p.path = cwd then { p with sessions := p.sessions ++ [s] } else p) :
          Project).name = p.name := by split_ifs <;> rfl
      rw [this, hpath]
      exact hname p hp
  case neg =>
    have hnotin : ∀ p ∈ projects, p.path ≠ cwd := by
      intro p hp hpc
      exact hin (List.any_eq_true.mpr ⟨p, hp, by simp [hpc]⟩)
    rw [add_session, if_neg hin] at h
    cases hdesc : read_project_description (fs cwd) with
    | error e => rw [hdesc] at h; exact Except.noConfusion h
    | ok d =>
      rw [hdesc] at h
      have hproj : projects' = projects ++
          [{ name := project_name cwd, path := cwd, description := d, sessions := [s] }] := by
        injection h with h1
        exact h1.symm
      have hnopair : ∀ q ∈ pairs, q.1 ≠ cwd := by
        intro q hq hqc
        obtain ⟨p, hp, hpq⟩ := hcov q hq
        exact hnotin p hp (hpq.trans hqc)
      have hfilter_nil : pairs.filter (by_cwd cwd) = [] := by
        rw [List.filter_eq_nil_iff]
        intro q hq
        simp only [by_cwd, decide_eq_true_eq]
        exact hnopair q hq
      refine ⟨?_, ?_, ?_, ?_, ?_⟩
      · rw [hproj, List.map_append]
        simp only [List.map_cons, List.map_nil]
        rw [List.nodup_append]
        refine ⟨hnd, List.nodup_singleton _, ?_⟩
        intro a ha hb
        have : a = cwd := by simpa using hb
        obtain ⟨p, hp, hpa⟩ := List.mem_map.mp ha
        exact hnotin p hp (hpa.trans this)
      · intro p' hp'
        rw [hproj] at hp'
        rcases List.mem_append.mp hp' with hp | hp
        · rw [List.filter_append, List.map_append, hfilter_single p'.path]
          rw [if_neg (fun hh => hnotin p' hp hh.symm)]
          simp only [List.map_nil, List.append_nil]
          exact hsess p' hp
        · rw [List.mem_singleton] at hp
          subst hp
          rw [List.filter_append, List.map_append, hfilter_single]
          simp only [if_pos rfl]
          rw [hfilter_nil]
          simp
      · intro q hq
        rcases List.mem_append.mp hq with hq | hq
        · obtain ⟨p, hp, hpq⟩ := hcov q hq
          exact ⟨p, by rw [hproj]; exact List.mem_append_left _ hp, hpq⟩
        · have hq1 : q = (cwd, s) := by simpa using hq
          refine ⟨⟨project_name cwd, cwd, d, [s]⟩, ?_, ?_⟩
          · rw [hproj]; exact List.mem_append_right _ (List.mem_singleton_self _)
          · rw [hq1]
      · intro p' hp'
        rw [hproj] at hp'
        rcases List.mem_append.mp hp' with hp | hp
        · obtain ⟨q, hq, hq1⟩ := hrev p' hp
          exact ⟨q, List.mem_append_left _ hq, hq1⟩
        · rw [List.mem_singleton] at hp
          subst hp
          exact ⟨(cwd, s), List.mem_append_right _ (List.mem_singleton_self _), rfl⟩
      · intro p' hp'
        rw [hproj] at hp'
        rcases List.mem_append.mp hp' with hp | hp
        · exact hname p' hp
        · rw [List.mem_singleton] at hp
          subst hp
          rfl

end WhereWasI

namespace WhereWasI

theorem add_all_ok_grouped {fs : String → ClaudeMd} :
    ∀ (ps : List (String × Session)) (projects projects' : List Project)
      (pairs : List (String × Session)),
    add_all fs projects ps = Except.ok projects' →
    Grouped pairs projects →
    Grouped (pairs ++ ps) projects' := by
  intro ps
  induction ps with
  | nil =>
    intro projects projects' pairs h hg
    rw [add_all] at h
    injection h with h1
    subst h1
    simpa using hg
  | cons q ps ih =>
    intro projects projects' pairs h hg
    obtain ⟨c, s⟩ := q
    rw [add_all] at h
    cases hstep : add_session fs projects c s with
    | error e => rw [hstep] at h; exact Except.noConfusion h
    | ok mid =>
      rw [hstep] at h
      have h1 := add_session_ok_grouped hstep hg
      have h2 := ih mid projects' (pairs ++ [(c, s)]) h h1
      simpa [List.append_assoc] using h2

theorem add_all_grouped {fs : String → ClaudeMd} {pairs : List (String × Session)}
    {projs : List Project} (h : add_all fs [] pairs = Except.ok projs) :
    Grouped pairs projs := by
  simpa using add_all_ok_grouped pairs [] projs [] h grouped_nil

theorem grouped_sessions_ne_nil {pairs : List (String × Session)}
    {projs : List Project} (hg : Grouped pairs projs) :
    ∀ p ∈ projs, p.sessions ≠ [] := by
  obtain ⟨hnd, hsess, hcov, hrev, hname⟩ := hg
  intro p hp
  obtain ⟨q, hq, hq1⟩ := hrev p hp
  rw [hsess p hp]
  intro hcontra
  have : q ∈ pairs.filter (by_cwd p.path) :=
    List.mem_filter.mpr ⟨hq, by simp [by_cwd, hq1]⟩
  rw [List.map_eq_nil_iff.mp hcontra] at this
  cases this

theorem scan_projects_ok {parse : String → Nat} {fs : String → ClaudeMd}
    {entries : List Entry} {projs : List Project}
    (h : add_all fs [] (all_pairs parse entries) = Except.ok projs) :
    scan_projects parse fs (some entries) =
      Except.ok (sort_desc Project.last_active (projs.map sort_sessions)) := by
  rw [scan_projects, h]

theorem scan_projects_ok_inv {parse : String → Nat} {fs : String → ClaudeMd}
    {entries : List Entry} {l : List Project}
    (h : scan_projects parse fs (some entries) = Except.ok l) :
    ∃ projs, add_all fs [] (all_pairs parse entries) = Except.ok projs ∧
      l = sort_desc Project.last_active (projs.map sort_sessions) := by
  rw [scan_projects] at h
  cases hh : add_all fs [] (all_pairs parse entries) with
  | error e => rw [hh] at h; exact Except.noConfusion h
  | ok projs =>
    rw [hh] at h
    injection h with h1
    exact ⟨projs, rfl, h1.symm⟩

theorem all_pairs_filter_length (parse : String → Nat) (c : String) :
    ∀ entries : List Entry,
    ((all_pairs parse entries).filter (by_cwd c)).length =
      (entries.map (fun e => ((unit_pairs parse e).filter (by_cwd c)).length)).sum := by
  intro entries
  induction entries with
  | nil => rfl
  | cons e es ih =>
    rw [all_pairs, List.filter_append, List.length_append, List.map_cons, List.sum_cons, ih]

end WhereWasI

namespace WhereWasI

theorem read_loop_skip_none (acc : Acc) :
    ∀ l1 l2 : List (Option LogRec),
    read_loop acc (l1 ++ none :: l2) = read_loop acc (l1 ++ l2) := by
  intro l1
  induction l1 generalizing acc with
  | nil => intro l2; rfl
  | cons l l1 ih =>
    intro l2
    cases l with
    | none => simpa only [List.cons_append, read_loop] using ih acc l2
    | some r =>
      simp only [List.cons_append, read_loop]
      by_cases hd : isDone (step acc r)
      · rw [if_pos hd, if_pos hd]
      · rw [if_neg hd, if_neg hd]
        exact ih (step acc r) l2

/-- C1: when the projects root directory does not exist, the scan
returns the empty sequence of projects and signals no error. -/
theorem scan_nonexistent_root (parse : String → Nat) (fs : String → ClaudeMd) :
    scan_projects parse fs none = Except.ok [] := rfl

/-- C8: a line that fails to decode as JSON is skipped and the rest of
the file is read as if the line were absent; a file whose read raises
`OSError` yields no session; and such an unreadable file contributes
nothing to the pairs the aggregator sees, so these per-unit failures
never propagate. -/
theorem bad_line_skipped (parse : String → Nat) (mtime : Nat)
    (l1 l2 : List (Option LogRec)) :
    read_jsonl_session parse (some (mtime, l1 ++ none :: l2)) =
      read_jsonl_session parse (some (mtime, l1 ++ l2))
    ∧ read_jsonl_session parse none = none
    ∧ ∀ (files : List LogFile) (entries : List Entry),
        all_pairs parse (Entry.dir (none :: files) :: entries) =
          all_pairs parse (Entry.dir files :: entries) := by
  refine ⟨?_, rfl, ?_⟩
  · simp only [read_jsonl_session, read_loop_skip_none]
  · intro files entries
    simp only [all_pairs, unit_pairs, List.filterMap_cons]
    rfl

end WhereWasI

namespace WhereWasI

/-- C4 counterexample: in `c4_lines` the first summary record carries
`A` but the session built by the reader carries `B` (each summary
record overwrites the previous value), and on `c4_lines_early` the
early-exiting loop keeps `A` while reading the whole file gives `B`,
so the early exit does change the result. -/
theorem summary_not_first_cex :
    read_jsonl_session ex_parse (some (5, c4_lines)) =
      some ("/x", { summary := "B", first_prompt := "hi", modified := 5, created := 2 })
    ∧ first_summary c4_lines = some ("A")
    ∧ ("B" : String) ≠ "A"
    ∧ (read_loop acc0 c4_lines_early).summary = "A"
    ∧ (read_loop_full acc0 c4_lines_early).summary = "B" := by
  refine ⟨rfl, rfl, by decide, rfl, rfl⟩

/-- C4 amended: the session's summary is the summary field of the last
record with type marker `summary` among the records the reader actually
processes (every such record overwrites the previous value, and the
early exit bounds which records are processed); it is the empty string
when no processed record is summary-typed. -/
theorem summary_last_processed (parse : String → Nat) (mtime : Nat)
    (lines : List (Option LogRec)) (c : String) (s : Session)
    (h : read_jsonl_session parse (some (mtime, lines)) = some (c, s)) :
    s.summary = (last_summary (processed_recs acc0 lines)).getD ("") := by
  rw [read_jsonl_session_eq] at h
  cases hts : first_timestamp lines with
  | none => rw [hts] at h; exact Option.noConfusion h
  | some t =>
    rw [hts] at h
    injection h with h1
    injection h1 with hc hs
    rw [← hs]

/-- C4 amended witness at the concrete log `c4_lines`. -/
theorem summary_last_processed_w :
    ({ summary := "B", first_prompt := "hi", modified := 5, created := 2 } :
      Session).summary = (last_summary (processed_recs acc0 c4_lines)).getD ("") :=
  summary_last_processed ex_parse 5 c4_lines ("/x") _ rfl

/-- C5 counterexample: the first user record of `c5_lines` has plain
string content (the empty string), yet the session's first prompt is
`hello`, taken from the second user record; so the first user record
does not fix `firstPrompt`. -/
theorem first_prompt_not_first_user_cex :
    read_jsonl_session ex_parse (some (5, c5_lines)) =
      some ("/a", { summary := "", first_prompt := "hello", modified := 5, created := 2 })
    ∧ (user_recs c5_lines).head? = some rec_user_empty
    ∧ rec_user_empty.content = MsgContent.str ("")
    ∧ ("hello" : String) ≠ "" := by
  refine ⟨rfl, rfl, rfl, by decide⟩

/-- C5 amended: the first prompt is the content of the first user
record whose message content is a non-empty plain string (user records
with non-string or empty-string content are passed over), and the
originating path is the first non-empty `cwd` among the user records
scanned up to and including the record that supplies the prompt. -/
theorem first_prompt_cwd_spec (parse : String → Nat) (mtime : Nat)
    (lines : List (Option LogRec)) (c : String) (s : Session)
    (h : read_jsonl_session parse (some (mtime, lines)) = some (c, s)) :
    s.first_prompt = spec_first_prompt (user_recs lines)
    ∧ c = spec_cwd (user_recs lines) := by
  rw [read_jsonl_session_eq] at h
  cases hts : first_timestamp lines with
  | none => rw [hts] at h; exact Option.noConfusion h
  | some t =>
    rw [hts] at h
    injection h with h1
    injection h1 with hc hs
    constructor
    · rw [← hs]
    · exact hc.symm

/-- C5 amended witness at the concrete log `c5_lines`. -/
theorem first_prompt_cwd_spec_w :
    ({ summary := "", first_prompt := "hello", modified := 5, created := 2 } :
        Session).first_prompt = spec_first_prompt (user_recs c5_lines)
    ∧ ("/a" : String) = spec_cwd (user_recs c5_lines) :=
  first_prompt_cwd_spec ex_parse 5 c5_lines ("/a") _ rfl

end WhereWasI

namespace WhereWasI

/-- C6: a log file in which no decodable record carries a non-empty
timestamp yields no session, and prepending such a file to a unit's
file list leaves the unit's contribution unchanged; when some record
does carry one, the session's created time is the parse of the first
such record's timestamp. -/
theorem no_timestamp_no_session (parse : String → Nat) (mtime : Nat)
    (lines : List (Option LogRec)) :
    ((∀ r ∈ decoded lines, rec_ts r = none) →
      read_jsonl_session parse (some (mtime, lines)) = none
      ∧ ∀ files : List LogFile,
          (some (mtime, lines) :: files).filterMap (read_jsonl_session parse) =
            files.filterMap (read_jsonl_session parse))
    ∧ ∀ t, first_timestamp lines = some t →
        (read_jsonl_session parse (some (mtime, lines))).map pair_created =
          some (parse t) := by
  constructor
  · intro hno
    have hts : first_timestamp lines = none := by
      rw [first_timestamp, List.head?_eq_none_iff, List.filterMap_eq_nil_iff]
      exact hno
    have hnone : read_jsonl_session parse (some (mtime, lines)) = none := by
      rw [read_jsonl_session_eq, hts]
    refine ⟨hnone, ?_⟩
    intro files
    rw [List.filterMap_cons_none hnone]
  · intro t ht
    rw [read_jsonl_session_eq, ht]
    rfl

/-- C6 witness: the log `c6_lines` has no timestamped record and yields
no session; the log `c4_lines` has first timestamp `T1` and its session
is created at `ex_parse T1 = 2`. -/
theorem no_timestamp_no_session_w :
    read_jsonl_session ex_parse (some (3, c6_lines)) = none
    ∧ (read_jsonl_session ex_parse (some (5, c4_lines))).map pair_created = some 2 :=
  ⟨((no_timestamp_no_session ex_parse 3 c6_lines).1 (by decide)).1,
   (no_timestamp_no_session ex_parse 5 c4_lines).2 ("T1") rfl⟩

theorem spec_cwd_empty_of_no_cwd (rs : List LogRec)
    (h : ∀ r ∈ rs, r.cwd = "") : spec_cwd rs = "" := by
  induction rs with
  | nil => rfl
  | cons r rs ih =>
    rw [spec_cwd]
    rw [if_neg (fun hh => hh (h r (List.mem_cons_self r rs)))]
    by_cases hsp : sets_prompt r = true
    · rw [if_pos hsp]
    · rw [if_neg hsp]
      exact ih (fun r hr => h r (List.mem_cons_of_mem _ hr))

/-- C10: a log with a timestamp but whose user records never carry a
non-empty `cwd` still yields a session, with the empty string as its
originating path; the empty path has the empty project name, and in any
successful scan every pair recorded for the empty path lands in a
project whose path and name are both empty. -/
theorem no_cwd_empty_path (parse : String → Nat) (mtime : Nat)
    (lines : List (Option LogRec)) (t : String)
    (h1 : first_timestamp lines = some t)
    (h2 : ∀ r ∈ decoded lines, r.rtype = some ("user") → r.cwd = "") :
    (read_jsonl_session parse (some (mtime, lines))).map pair_cwd = some ("")
    ∧ project_name ("") = ""
    ∧ ∀ (fs : String → ClaudeMd) (entries : List Entry) (l : List Project),
        scan_projects parse fs (some entries) = Except.ok l →
        ∀ q ∈ all_pairs parse entries, q.1 = "" →
          ∃ p ∈ l, p.path = "" ∧ p.name = "" := by
  refine ⟨?_, rfl, ?_⟩
  · have hcw : spec_cwd (user_recs lines) = "" := by
      apply spec_cwd_empty_of_no_cwd
      intro r hr
      have hr2 := List.mem_filter.mp hr
      exact h2 r hr2.1 (by simpa using hr2.2)
    rw [read_jsonl_session_eq, h1]
    show some (pair_cwd _) = some ("")
    rw [pair_cwd, hcw]
  · intro fs entries l hscan q hq hq1
    obtain ⟨projs, hadd, hl⟩ := scan_projects_ok_inv hscan
    obtain ⟨hnd, hsess, hcov, hrev, hname⟩ := add_all_grouped hadd
    obtain ⟨p0, hp0, hp0q⟩ := hcov q hq
    have hpath : p0.path = "" := hp0q.trans hq1
    refine ⟨sort_sessions p0, ?_, ?_, ?_⟩
    · rw [hl]
      exact (sort_desc_perm Project.last_active _).mem_iff.mpr
        (List.mem_map_of_mem sort_sessions hp0)
    · exact hpath
    · show p0.name = ""
      rw [hname p0 hp0, hpath]
      rfl

/-- C10 witness: the concrete log `c10_lines` yields a session whose
originating path is the empty string, and the empty path names the
empty project name. -/
theorem no_cwd_empty_path_w :
    (read_jsonl_session ex_parse (some (4, c10_lines))).map pair_cwd = some ("")
    ∧ project_name ("") = "" :=
  ⟨(no_cwd_empty_path ex_parse 4 c10_lines ("T9") rfl (by decide)).1,
   (no_cwd_empty_path ex_parse 4 c10_lines ("T9") rfl (by decide)).2.1⟩

end WhereWasI

namespace WhereWasI

theorem scan_result_mem {parse : String → Nat} {fs : String → ClaudeMd}
    {entries : List Entry} {projs l : List Project}
    (h1 : add_all fs [] (all_pairs parse entries) = Except.ok projs)
    (h2 : scan_projects parse fs (some entries) = Except.ok l) :
    l = sort_desc Project.last_active (projs.map sort_sessions) := by
  rw [scan_projects_ok h1] at h2
  injection h2 with h3
  exact h3.symm

theorem sessions_of_sorted_ne_nil {pairs : List (String × Session)}
    {projs : List Project} (hg : Grouped pairs projs) :
    ∀ p0 ∈ projs, (sort_sessions p0).sessions ≠ [] := by
  intro p0 hp0 hcontra
  have hperm : (sort_desc mod_key p0.sessions).Perm p0.sessions :=
    sort_desc_perm mod_key p0.sessions
  rw [show (sort_sessions p0).sessions = sort_desc mod_key p0.sessions from rfl]
    at hcontra
  rw [hcontra] at hperm
  exact grouped_sessions_ne_nil hg p0 hp0 hperm.symm.eq_nil

/-- C2: a successful scan's project list is sorted by `last_active` in
non-increasing order, `last_active` is attained as the maximum of the
project's session modification times, and projects with equal
`last_active` keep their discovery-order relative positions (the
sublist at any fixed key value equals that of the pre-sort grouped
list). -/
theorem scan_sorted_by_last_active (parse : String → Nat) (fs : String → ClaudeMd)
    (entries : List Entry) (projs l : List Project)
    (h1 : add_all fs [] (all_pairs parse entries) = Except.ok projs)
    (h2 : scan_projects parse fs (some entries) = Except.ok l) :
    l.Pairwise la_ge
    ∧ (∀ p ∈ l, (∀ s ∈ p.sessions, s.modified ≤ p.last_active)
        ∧ p.last_active ∈ p.sessions.map session_modified)
    ∧ ∀ m : Nat, l.filter (by_la m) = (projs.map sort_sessions).filter (by_la m) := by
  have hl := scan_result_mem h1 h2
  subst hl
  refine ⟨sort_desc_sorted Project.last_active _, ?_, ?_⟩
  · intro p hp
    have hp2 : p ∈ projs.map sort_sessions :=
      (sort_desc_perm Project.last_active _).mem_iff.mp hp
    obtain ⟨p0, hp0, rfl⟩ := List.mem_map.mp hp2
    have hne : (sort_sessions p0).sessions ≠ [] :=
      sessions_of_sorted_ne_nil (add_all_grouped h1) p0 hp0
    exact ⟨last_active_ub _, last_active_mem _ hne⟩
  · intro m
    exact sort_desc_filter Project.last_active m _

/-- C2 witness on the concrete example scan: the result is sorted and
the tie-class at last activity 7 agrees with the pre-sort grouped
order. -/
theorem scan_sorted_by_last_active_w :
    l_ex.Pairwise la_ge
    ∧ l_ex.filter (by_la 7) = (projs_ex.map sort_sessions).filter (by_la 7) :=
  ⟨(scan_sorted_by_last_active ex_parse fs_ex entries_ex projs_ex l_ex rfl rfl).1,
   (scan_sorted_by_last_active ex_parse fs_ex entries_ex projs_ex l_ex rfl rfl).2.2 7⟩

/-- C3: in a successful scan every project's session list is sorted by
`modified` in non-increasing order, and sessions with equal `modified`
keep their discovery order: the sublist at any fixed modification time
equals that of the corresponding pre-sort project. -/
theorem sessions_sorted_by_modified (parse : String → Nat) (fs : String → ClaudeMd)
    (entries : List Entry) (projs l : List Project)
    (h1 : add_all fs [] (all_pairs parse entries) = Except.ok projs)
    (h2 : scan_projects parse fs (some entries) = Except.ok l) :
    ∀ p ∈ l, p.sessions.Pairwise mod_ge
      ∧ ∃ p0 ∈ projs, p0.path = p.path ∧
          ∀ m : Nat, p.sessions.filter (by_mod m) = p0.sessions.filter (by_mod m) := by
  have hl := scan_result_mem h1 h2
  subst hl
  intro p hp
  have hp2 : p ∈ projs.map sort_sessions :=
    (sort_desc_perm Project.last_active _).mem_iff.mp hp
  obtain ⟨p0, hp0, rfl⟩ := List.mem_map.mp hp2
  refine ⟨sort_desc_sorted mod_key _, p0, hp0, rfl, ?_⟩
  intro m
  exact sort_desc_filter mod_key m _

/-- C3 witness: the merged project of the example scan has its sessions
sorted by recency. -/
theorem sessions_sorted_by_modified_w :
    proj_x_sorted.sessions.Pairwise mod_ge :=
  ((sessions_sorted_by_modified ex_parse fs_ex entries_ex projs_ex l_ex rfl rfl)
    proj_x_sorted (by decide)).1

end WhereWasI

namespace WhereWasI

/-- C7: in a successful scan no two distinct projects share an
originating path (string equality, no normalization), every discovered
pair's path is represented by a project, each project's session count
is the sum over root entries of the number of valid sessions that unit
contributed for that path, and no project has an empty session list. -/
theorem projects_unique_by_path (parse : String → Nat) (fs : String → ClaudeMd)
    (entries : List Entry) (projs l : List Project)
    (h1 : add_all fs [] (all_pairs parse entries) = Except.ok projs)
    (h2 : scan_projects parse fs (some entries) = Except.ok l) :
    (∀ p ∈ l, ∀ p' ∈ l, p.path = p'.path → p = p')
    ∧ (∀ q ∈ all_pairs parse entries, ∃ p ∈ l, p.path = q.1)
    ∧ (∀ p ∈ l, p.sessions.length =
        (entries.map (fun e => ((unit_pairs parse e).filter (by_cwd p.path)).length)).sum)
    ∧ (∀ p ∈ l, p.sessions ≠ []) := by
  have hl := scan_result_mem h1 h2
  subst hl
  have hg := add_all_grouped h1
  obtain ⟨hnd, hsess, hcov, hrev, hname⟩ := hg
  have hmem : ∀ p, p ∈ sort_desc Project.last_active (projs.map sort_sessions) ↔
      p ∈ projs.map sort_sessions :=
    fun p => (sort_desc_perm Project.last_active _).mem_iff
  have hpathmap : (projs.map sort_sessions).map (fun p => p.path) =
      projs.map (fun p => p.path) := by
    rw [List.map_map]
    exact List.map_congr_left (fun p _ => rfl)
  refine ⟨?_, ?_, ?_, ?_⟩
  · intro p hp p' hp' hpp
    have hp2 := (hmem p).mp hp
    have hp'2 := (hmem p').mp hp'
    have hnd2 : ((projs.map sort_sessions).map (fun p => p.path)).Nodup := by
      rw [hpathmap]; exact hnd
    exact List.inj_on_of_nodup_map hnd2 hp2 hp'2 hpp
  · intro q hq
    obtain ⟨p0, hp0, hp0q⟩ := hcov q hq
    exact ⟨sort_sessions p0, (hmem _).mpr (List.mem_map_of_mem sort_sessions hp0), hp0q⟩
  · intro p hp
    obtain ⟨p0, hp0, rfl⟩ := List.mem_map.mp ((hmem p).mp hp)
    have hlen : (sort_sessions p0).sessions.length = p0.sessions.length :=
      (sort_desc_perm mod_key p0.sessions).length_eq
    rw [hlen, hsess p0 hp0, List.length_map,
      show (sort_sessions p0).path = p0.path from rfl]
    exact all_pairs_filter_length parse p0.path entries
  · intro p hp
    obtain ⟨p0, hp0, rfl⟩ := List.mem_map.mp ((hmem p).mp hp)
    exact sessions_of_sorted_ne_nil ⟨hnd, hsess, hcov, hrev, hname⟩ p0 hp0

/-- C7 witness: the two example units that both resolve to `/x` are
merged into one project with two sessions. -/
theorem projects_unique_by_path_w :
    proj_x_sorted.sessions.length = 2 ∧ proj_x_sorted.sessions ≠ [] :=
  ⟨((projects_unique_by_path ex_parse fs_ex entries_ex projs_ex l_ex rfl rfl).2.2.1
      proj_x_sorted (by decide)).trans (by decide),
   (projects_unique_by_path ex_parse fs_ex entries_ex projs_ex l_ex rfl rfl).2.2.2
      proj_x_sorted (by decide)⟩

theorem add_session_total {fs : String → ClaudeMd}
    (hfs : ∀ path, fs path ≠ ClaudeMd.unreadable)
    (projects : List Project) (c : String) (s : Session) :
    ∃ res, add_session fs projects c s = Except.ok res := by
  rw [add_session]
  by_cases hin : projects.any (fun p => p.path == c) = true
  · rw [if_pos hin]; exact ⟨_, rfl⟩
  · rw [if_neg hin]
    cases hmd : fs c with
    | missing => exact ⟨_, rfl⟩
    | unreadable => exact absurd hmd (hfs c)
    | content ls => exact ⟨_, rfl⟩

theorem add_all_total {fs : String → ClaudeMd}
    (hfs : ∀ path, fs path ≠ ClaudeMd.unreadable) :
    ∀ (ps : List (String × Session)) (projects : List Project),
    ∃ res, add_all fs projects ps = Except.ok res := by
  intro ps
  induction ps with
  | nil => intro projects; exact ⟨projects, rfl⟩
  | cons q ps ih =>
    intro projects
    obtain ⟨c, s⟩ := q
    obtain ⟨mid, hmid⟩ := add_session_total hfs projects c s
    rw [add_all, hmid]
    exact ih mid

/-- C9 counterexample: when a project's `CLAUDE.md` exists but cannot
be read, the `OSError` raised by the read propagates and the scan fails
instead of completing with an empty description (the root does contain
one valid session, so the failure comes from the description read). -/
theorem description_unreadable_cex :
    scan_projects ex_parse fs_unreadable (some entries9) = Except.error ()
    ∧ read_jsonl_session ex_parse (some (7, [some rec_u1])) =
        some ("/x", { summary := "", first_prompt := "hi", modified := 7, created := 2 }) :=
  ⟨rfl, rfl⟩

/-- C9 amended: a missing `CLAUDE.md` gives the empty description, the
extraction is total in the file's content, and the scan never fails as
long as no encountered `CLAUDE.md` is existing-but-unreadable; an
unreadable one, however, makes the scan fail. -/
theorem scan_description_behavior (parse : String → Nat) (fs : String → ClaudeMd)
    (root : Option (List Entry))
    (hfs : ∀ path, fs path ≠ ClaudeMd.unreadable) :
    scan_projects parse fs root ≠ Except.error ()
    ∧ read_project_description ClaudeMd.missing = Except.ok ("")
    ∧ ∀ ls, read_project_description (ClaudeMd.content ls) =
        Except.ok (extract_description ls) := by
  refine ⟨?_, rfl, fun ls => rfl⟩
  cases root with
  | none => intro hcontra; exact Except.noConfusion hcontra
  | some entries =>
    obtain ⟨res, hres⟩ := add_all_total hfs (all_pairs parse entries) []
    rw [scan_projects, hres]
    intro hcontra
    exact Except.noConfusion hcontra

/-- C9 amended witness: the example scan, whose documentation files are
all missing, does not fail. -/
theorem scan_description_behavior_w :
    scan_projects ex_parse fs_ex (some entries_ex) ≠ Except.error ()
    ∧ read_project_description ClaudeMd.missing = Except.ok ("") :=
  ⟨(scan_description_behavior ex_parse fs_ex (some entries_ex)
      (fun _ h => ClaudeMd.noConfusion h)).1,
   (scan_description_behavior ex_parse fs_ex (some entries_ex)
      (fun _ h => ClaudeMd.noConfusion h)).2.1⟩

end WhereWasI
